import Mathlib

/-!
Verification of the ReelTransfer core against its specification.

The development shallowly embeds the orchestration logic of the
application (plan building, duplicate scanning, collision-free renaming,
progress tracking, exit-code classification) as executable Lean
definitions, and proves the spec's testable properties about them.

Paths are modelled as lists of components (`PathC`); the filesystem is
modelled as an explicit oracle structure (existence predicate, resolver,
directory walk), since the code only interacts with the filesystem
through those operations.
-/

namespace ReelTransfer

/-- A filesystem path, as its ordered list of components. -/
abbrev PathC := List String

/-- Filesystem oracle used by `build_plan`: path existence and path
resolution (`Path.exists()` and `Path.resolve()` in the source). -/
structure FS where
  pathExists : PathC → Bool
  resolve : PathC → PathC

/-- The string-valued duplicate policy of the source
(`"ask" | "skip" | "overwrite" | "rename"`), as a closed enumeration. -/
inductive DupAction where
  | ask
  | skip
  | overwrite
  | rename
deriving DecidableEq, Repr

/-- `RoboCopyPlan` of `core/transfer.py`: resolved source, destination and
the ordered argument sequence for the external tool. -/
structure RoboCopyPlan where
  src : PathC
  dst : PathC
  args : List String
deriving DecidableEq, Repr

/-- `build_plan` of `core/transfer.py`.  An empty `include_files` /
`exclude_files` list plays the role of Python's `None` (the source only
tests truthiness, under which `None` and `[]` coincide).  Python
exceptions (`raise ValueError`) are modelled as `Except.error`. -/
def build_plan (fs : FS) (src dst : PathC)
    (include_subdirs move_files mirror dry_run : Bool)
    (retry_count retry_wait_sec multithread_count : Int)
    (duplicate_action : DupAction)
    (include_files : List String) (include_file_list : Bool)
    (exclude_files : List String) : Except String RoboCopyPlan :=
  if !(fs.pathExists src) then
    .error "Source does not exist."
  else if fs.resolve src = fs.resolve dst then
    .error "Source and destination must be different."
  else
    let args : List String :=
      (if !include_files.isEmpty then ["/LEV:1"]
       else if include_subdirs then ["/E"] else [])
      ++ (if move_files then ["/MOVE"] else [])
      ++ (if mirror then ["/MIR"] else [])
      ++ (if dry_run then ["/L"] else [])
      ++ ["/R:" ++ toString (max retry_count 0),
          "/W:" ++ toString (max retry_wait_sec 0)]
      ++ (if multithread_count ≠ 0 ∧ multithread_count > 0 then
            ["/MT:" ++ toString multithread_count] else [])
      ++ (match duplicate_action with
          | .skip => ["/XN", "/XO", "/XC"]
          | .rename => ["/XN", "/XO", "/XC"]
          | .overwrite => ["/IS", "/IT"]
          | .ask => [])
      ++ (if !include_files.isEmpty then "/IF" :: include_files else [])
      ++ (if !exclude_files.isEmpty then "/XF" :: exclude_files else [])
      ++ (if include_file_list then ["/BYTES"] else ["/NFL"])
      ++ ["/NDL", "/NP", "/TEE"]
    .ok { src := src, dst := dst, args := args }

/-- Last component of a path (`Path.name`), empty for the root. -/
def lastName (p : PathC) : String := p.getLastD ""

/-- `MainWindow._build_plan` of `ui/main_window.py`, restricted to its
pure validation and plan-synthesis logic.  The duplicate-policy dialog
outcome (`dup_action`) and the exclusion list derived from a scan
(`exclude_files`) are taken as inputs, since they come from user
interaction; the source checks the explicit-file-selection constraints
(same parent folder, no mirror) before either of those is consulted.
Message-box rejections (which return `None` in the source) are modelled
as `Except.error` with the dialog's message. -/
def ui_build_plan (fs : FS) (src dst : PathC) (source_files : List PathC)
    (include_subdirs move_files mirror dry_run : Bool)
    (retry_count retry_wait_sec multithread_count : Int)
    (dup_action : DupAction) (for_execution : Bool)
    (exclude_files : List String) : Except String RoboCopyPlan :=
  if src.isEmpty || dst.isEmpty then
    .error "Please select source and destination folders."
  else if !source_files.isEmpty then
    let base := source_files.headI.dropLast
    if source_files.any (fun p => p.dropLast ≠ base) then
      .error "Please select files from the same folder."
    else if mirror then
      .error "Mirror mode is not supported when selecting files."
    else
      build_plan fs base dst include_subdirs move_files mirror dry_run
        retry_count retry_wait_sec multithread_count dup_action
        (source_files.map lastName) for_execution exclude_files
  else
    build_plan fs src dst include_subdirs move_files mirror dry_run
      retry_count retry_wait_sec multithread_count dup_action
      [] for_execution exclude_files

/-- Filesystem oracle used by the duplicate scanner: path existence plus
the file enumeration `iter_source_files(src, include_subdirs)` (an
`os.walk` / `os.listdir` traversal in the source, treated as an oracle
because its output is whatever the operating system reports). -/
structure ScanFS where
  pathExists : PathC → Bool
  walkFiles : PathC → Bool → List PathC

/-- One step of the `find_duplicates` loop body: relativize `f` to
`root` (`Path.relative_to`, which succeeds exactly when `root` is a
component prefix, with fallback to the bare file name), test existence
of the corresponding destination path, and update the accumulators. -/
def dupStep (fs : ScanFS) (root dst : PathC) (sample_limit : Nat)
    (return_pairs : Bool) (acc : Nat × List PathC × List (PathC × PathC))
    (f : PathC) : Nat × List PathC × List (PathC × PathC) :=
  let (total, sample, pairs) := acc
  let rel : PathC := if root.isPrefixOf f then f.drop root.length else [lastName f]
  let dest_file := dst ++ rel
  if fs.pathExists dest_file then
    (total + 1,
     if sample.length < sample_limit then sample ++ [dest_file] else sample,
     if return_pairs then pairs ++ [(f, dest_file)] else pairs)
  else
    (total, sample, pairs)

/-- `find_duplicates` of `core/transfer.py`. -/
def find_duplicates (fs : ScanFS) (src dst : PathC) (include_subdirs : Bool)
    (sample_limit : Nat) (return_pairs : Bool) :
    Nat × List PathC × List (PathC × PathC) :=
  if !(fs.pathExists src) || !(fs.pathExists dst) then (0, [], [])
  else
    (fs.walkFiles src include_subdirs).foldl
      (dupStep fs src dst sample_limit return_pairs) (0, [], [])

/-- `find_duplicates_for_files` of `core/transfer.py`.  Source files that
no longer exist are skipped inside the loop. -/
def find_duplicates_for_files (fs : ScanFS) (files : List PathC) (dst : PathC)
    (sample_limit : Nat) (return_pairs : Bool) :
    Nat × List PathC × List (PathC × PathC) :=
  if files.isEmpty || !(fs.pathExists dst) then (0, [], [])
  else
    let base := files.headI.dropLast
    files.foldl
      (fun acc f =>
        if !(fs.pathExists f) then acc
        else dupStep fs base dst sample_limit return_pairs acc f)
      (0, [], [])

/-- Python `Path.stem` / `Path.suffix` split of a final path component:
the suffix is the part from the last dot on, except when that dot is the
first or the last character of the name (then the suffix is empty). -/
def splitStem (name : String) : String × String :=
  let rev := name.toList.reverse
  let b := rev.takeWhile (fun c => c ≠ '.')
  match rev.dropWhile (fun c => c ≠ '.') with
  | [] => (name, "")
  | _ :: a =>
    if a.isEmpty || b.isEmpty then (name, "")
    else (a.reverse.asString, ('.' :: b.reverse).asString)

/-- The probe name `f"{stem} ({i}){suffix}"` used by
`_next_available_path`. -/
def candidateLeaf (stem sfx : String) (i : Nat) : String :=
  stem ++ " (" ++ Nat.repr i ++ ")" ++ sfx

/-- The probing loop of `_next_available_path`, starting at index
`start`.  The source loop is unbounded; here it carries fuel, and
`next_available_path_isSome` below proves that the fuel chosen in
`next_available_path` always suffices, so the `none` result is
unreachable. -/
def searchAvailable (ex : List PathC) (parent : PathC) (stem sfx : String) :
    Nat → Nat → Option PathC
  | _, 0 => none
  | start, fuel + 1 =>
    let candidate := parent ++ [candidateLeaf stem sfx start]
    if ex.contains candidate then searchAvailable ex parent stem sfx (start + 1) fuel
    else some candidate

/-- `_next_available_path` of `core/transfer.py`: keep `dst` when free,
otherwise probe `stem (1)sfx`, `stem (2)sfx`, … in increasing order.
The filesystem is the finite list `ex` of existing paths. -/
def next_available_path (ex : List PathC) (dst : PathC) : Option PathC :=
  if !(ex.contains dst) then some dst
  else
    let s := splitStem (lastName dst)
    searchAvailable ex dst.dropLast s.1 s.2 1 (ex.length + 1)

/-- Rendering of a path for error messages (`str(Path)`). -/
def pathStr (p : PathC) : String := String.intercalate "/" p

/-- World state for the post-run rename job: the set of existing paths
plus failure oracles deciding which directory creations and which
move/copy invocations raise an exception (with the exception's
message), modelling the environment-dependent `OSError`s of
`Path.mkdir` and `shutil.move` / `shutil.copy2`. -/
structure RenameWorld where
  ex : List PathC
  mkdirErr : PathC → Option String
  moveErr : PathC → PathC → Option String

/-- Existing paths after `dst_parent.mkdir(parents=True, exist_ok=True)`
succeeds: the parent directory chain is created. -/
def afterMkdir (w : RenameWorld) (dstParent : PathC) : RenameWorld :=
  { w with ex := w.ex ++ dstParent.inits.filter (fun q => !q.isEmpty) }

/-- One iteration of the `apply_duplicate_renames` loop, threading the
world, the success count and the collected error strings.  A pair whose
source no longer exists is skipped; a raised exception inside the `try`
block is caught and recorded as `"<source> -> <dest>: <message>"`; a
successful move removes the source and adds the final destination. -/
def applyStep (move_files : Bool) (st : RenameWorld × Nat × List String)
    (pr : PathC × PathC) : RenameWorld × Nat × List String :=
  let (w, count, errors) := st
  let (src, dst) := pr
  if !(w.ex.contains src) then st
  else
    match w.mkdirErr dst.dropLast with
    | some msg =>
      (w, count, errors ++ [pathStr src ++ " -> " ++ pathStr dst ++ ": " ++ msg])
    | none =>
      let w1 := afterMkdir w dst.dropLast
      match next_available_path w1.ex dst with
      | none => (w1, count, errors)
      | some final =>
        match w.moveErr src final with
        | some msg =>
          (w1, count, errors ++ [pathStr src ++ " -> " ++ pathStr dst ++ ": " ++ msg])
        | none =>
          let ex2 := if move_files then (w1.ex.filter (fun q => q ≠ src)) ++ [final]
                     else w1.ex ++ [final]
          ({ w1 with ex := ex2 }, count + 1, errors)

/-- `apply_duplicate_renames` of `core/transfer.py`, returning the
`(count, errors)` pair. -/
def apply_duplicate_renames (w : RenameWorld) (move_files : Bool)
    (pairs : List (PathC × PathC)) : Nat × List String :=
  let r := pairs.foldl (applyStep move_files) (w, 0, [])
  (r.2.1, r.2.2)

/-- World state left behind by the rename job (used to state how
processing a concatenation of pair lists decomposes). -/
def worldAfter (w : RenameWorld) (move_files : Bool)
    (pairs : List (PathC × PathC)) : RenameWorld :=
  (pairs.foldl (applyStep move_files) (w, 0, [])).1

/-- Outcome classification of a finished run. -/
inductive RunOutcome where
  | success
  | failed
deriving DecidableEq, Repr

/-- Exit-code classification of `MainWindow._on_finished`: robocopy exit
codes `>= 8` are reported as failure, everything below as
success/warning completion. -/
def classifyExit (exit_code : Int) : RunOutcome :=
  if exit_code ≥ 8 then .failed else .success

/-- Line terminators recognised by `_consume_output_lines` (the source
tests `endswith("\n")` / `endswith("\r")`). -/
def isLineTerm (c : Char) : Bool := c = '\n' || c = '\r'

/-- Python `str.splitlines(keepends=True)` for LF-, CR- and
CRLF-terminated text (the terminators occurring in the wrapped tool's
stream): each produced line keeps its terminator, a CRLF pair counts as
one terminator, and a trailing unterminated segment is returned as a
final line. -/
def splitLinesKeep : List Char → List (List Char)
  | [] => []
  | [c] =>
    if c = '\n' then [['\n']]
    else if c = '\r' then [['\r']]
    else [[c]]
  | c :: c2 :: rest =>
    if c = '\n' then ['\n'] :: splitLinesKeep (c2 :: rest)
    else if c = '\r' then
      if c2 = '\n' then ['\r', '\n'] :: splitLinesKeep rest
      else ['\r'] :: splitLinesKeep (c2 :: rest)
    else
      match splitLinesKeep (c2 :: rest) with
      | [] => [[c]]
      | l :: ls => (c :: l) :: ls

/-- The test `lines[-1].endswith("\n") or lines[-1].endswith("\r")`. -/
def endsWithTerm (l : List Char) : Bool :=
  match l.getLast? with
  | some c => c = '\n' || c = '\r'
  | none => false

/-- ASCII whitespace as recognised by Python's `str.strip` and `\s`. -/
def isPySpace (c : Char) : Bool :=
  c = ' ' || c = '\t' || c = '\n' || c = '\r' || c = '\x0B' || c = '\x0C'

/-- Python `str.strip()`: drop leading and trailing whitespace. -/
def pyStrip (l : List Char) : List Char :=
  ((l.dropWhile isPySpace).reverse.dropWhile isPySpace).reverse

/-- Case-insensitive literal match: strip `pat` (given lowercase) from
the front of the input, returning the remainder on success. -/
def dropCI : List Char → List Char → Option (List Char)
  | [], cs => some cs
  | _ :: _, [] => none
  | p :: ps, c :: cs => if c.toLower = p then dropCI ps cs else none

/-- The keyword alternation `(New File|Newer|Older|Changed)` of
`_file_line_re`, case-insensitive.  The four alternatives are pairwise
prefix-incompatible, so first-match semantics coincides with the
regex's backtracking semantics. -/
def matchKeyword (cs : List Char) : Option (List Char) :=
  match dropCI ("new file".toList) cs with
  | some r => some r
  | none =>
    match dropCI ("newer".toList) cs with
    | some r => some r
    | none =>
      match dropCI ("older".toList) cs with
      | some r => some r
      | none => dropCI ("changed".toList) cs

/-- The character class `[0-9,]`. -/
def isDigitComma (c : Char) : Bool := c.isDigit || c = ','

/-- `_file_line_re.match(line)`, i.e. the anchored pattern
`^\s*(New File|Newer|Older|Changed)\s+([0-9,]+)\s+` (IGNORECASE);
returns the text of group 2 (the size field) on success.  Greedy
matching without backtracking is exact here because whitespace and
`[0-9,]` are disjoint character classes. -/
def matchFileLine (cs : List Char) : Option (List Char) :=
  let cs1 := cs.dropWhile isPySpace
  match matchKeyword cs1 with
  | none => none
  | some r1 =>
    match r1 with
    | [] => none
    | c :: r2 =>
      if !isPySpace c then none
      else
        let r3 := r2.dropWhile isPySpace
        let ds := r3.takeWhile isDigitComma
        let r4 := r3.dropWhile isDigitComma
        if ds.isEmpty then none
        else
          match r4 with
          | [] => none
          | c2 :: _ => if isPySpace c2 then some ds else none

/-- Decimal value of a digit string. -/
def digitsToNat (ds : List Char) : Nat :=
  ds.foldl (fun n c => n * 10 + (c.toNat - '0'.toNat)) 0

/-- `int(size_text)` after `size_text.replace(",", "")`: an all-comma
group leaves an empty string, whose `int()` raises `ValueError`, caught
by the source and turned into size 0. -/
def parseSize (ds : List Char) : Nat :=
  let digits := ds.filter (fun c => c ≠ ',')
  if digits.isEmpty then 0 else digitsToNat digits

/-- Progress-tracking state: the carry-over buffer and the running
counters (`_output_buffer`, `_progress_copied_files`,
`_progress_copied_bytes`). -/
structure Tracker where
  buffer : List Char
  copiedFiles : Nat
  copiedBytes : Nat
deriving DecidableEq, Repr

/-- Initial tracker state at process start. -/
def trackerInit : Tracker := { buffer := [], copiedFiles := 0, copiedBytes := 0 }

/-- `_update_progress_from_line` on an already-stripped line (the source
strips before the call).  `max(size, 0)` of the source is the identity
here because parsed sizes are naturals. -/
def updateFromLine (p : Nat × Nat) (line : List Char) : Nat × Nat :=
  if line.isEmpty then p
  else
    match matchFileLine line with
    | none => p
    | some ds => (p.1 + 1, p.2 + parseSize ds)

/-- The `for line in lines` loop of `_consume_output_lines`. -/
def processLines (p : Nat × Nat) (ls : List (List Char)) : Nat × Nat :=
  ls.foldl (fun q l => updateFromLine q (pyStrip l)) p

/-- Body of `_consume_output_lines` as a function of the concatenated
buffer contents and the running counters: split into kept-ends lines,
retain an unterminated trailing line as the new carry-over, and parse
the complete lines. -/
def consumeBuf (buf : List Char) (p : Nat × Nat) : Tracker :=
  let lines := splitLinesKeep buf
  if lines.isEmpty then
    { buffer := buf, copiedFiles := p.1, copiedBytes := p.2 }
  else if endsWithTerm (lines.getLastD []) then
    let q := processLines p lines
    { buffer := [], copiedFiles := q.1, copiedBytes := q.2 }
  else
    let q := processLines p lines.dropLast
    { buffer := lines.getLastD [], copiedFiles := q.1, copiedBytes := q.2 }

/-- `_consume_output_lines` of `ui/main_window.py`: append the chunk to
the carry-over buffer and process the result. -/
def consume (t : Tracker) (data : List Char) : Tracker :=
  consumeBuf (t.buffer ++ data) (t.copiedFiles, t.copiedBytes)

/-- One-character stream processor used to prove that `consume` is
insensitive to chunk boundaries: a terminator flushes the buffered line,
any other character is buffered. -/
def stepChar (t : Tracker) (c : Char) : Tracker :=
  if isLineTerm c then
    let q := updateFromLine (t.copiedFiles, t.copiedBytes) (pyStrip (t.buffer ++ [c]))
    { buffer := [], copiedFiles := q.1, copiedBytes := q.2 }
  else { t with buffer := t.buffer ++ [c] }

/-- Fueled floor of the base-2 logarithm (index of the highest set
bit), total and kernel-computable. -/
def log2Fuel : Nat → Nat → Nat
  | 0, _ => 0
  | fuel + 1, n => if n ≥ 2 then log2Fuel fuel (n / 2) + 1 else 0

/-- Floor of the base-2 logarithm. -/
def log2Nat (n : Nat) : Nat := log2Fuel n n

/-- Round the exact fraction `n / d` to the nearest integer, ties to
even (the IEEE-754 default rounding), for `d > 0`. -/
def rneDiv (n d : Nat) : Nat :=
  let q := n / d
  let r := n % d
  if 2 * r < d then q
  else if d < 2 * r then q + 1
  else if q % 2 = 0 then q else q + 1

/-- Scale `a` by `2 ^ (-e)`: returns the numerator and an extra
denominator factor so that the pair represents `a * 2 ^ (-e)` exactly. -/
def scalePow2 (a : Nat) (e : Int) : Nat × Nat :=
  if e ≤ 0 then (a * 2 ^ (-e).toNat, 1) else (a, 2 ^ e.toNat)

/-- IEEE-754 binary64 correctly-rounded quotient of two positive
naturals, as an exact significand/exponent pair `(m, e)` of value
`m * 2 ^ e` with `m` rounded to 53 bits (round-nearest, ties-to-even).
Exponent-range overflow and subnormals are outside the magnitudes
reachable here and are not modelled. -/
def floatDivPair (a b : Nat) : Nat × Int :=
  let e0 : Int := (log2Nat a : Int) - (log2Nat b : Int) - 52
  let p0 := scalePow2 a e0
  let e : Int := if p0.1 < 2 ^ 52 * (b * p0.2) then e0 - 1 else e0
  let p := scalePow2 a e
  (rneDiv p.1 (b * p.2), e)

/-- Multiply a binary64 value `m * 2 ^ e` by the exactly representable
100 and round the product back to 53 significand bits. -/
def floatMul100Pair (m : Nat) (e : Int) : Nat × Int :=
  let m1 := m * 100
  let k := log2Nat m1
  if k ≤ 52 then (m1, e)
  else (rneDiv m1 (2 ^ (k - 52)), e + (k - 52))

/-- Integer part of the nonnegative binary64 value `m * 2 ^ e`. -/
def floorPair (m : Nat) (e : Int) : Nat :=
  if 0 ≤ e then m * 2 ^ e.toNat else m / 2 ^ (-e).toNat

/-- `min(100, int((copied / total) * 100))` of `_update_progress`: the
true division and the product are binary64 (Python `float`) operations,
modelled exactly by integer significand arithmetic; `int()` truncates,
which on these nonnegative values is the floor.  Only called with
`total > 0` (the source guards each tier). -/
def pyPercent (copied total : Nat) : Nat :=
  if copied = 0 then 0
  else
    let p1 := floatDivPair copied total
    let p2 := floatMul100Pair p1.1 p1.2
    min 100 (floorPair p2.1 p2.2)

/-- `_update_progress` of `ui/main_window.py`: the percentage written to
the progress bar, or `none` when no branch updates it (totals unknown
and the run not finished). -/
def update_progress (totalBytes totalFiles copiedBytes copiedFiles : ℕ)
    (final : Bool) : Option ℕ :=
  if totalBytes > 0 then some (pyPercent copiedBytes totalBytes)
  else if totalFiles > 0 then some (pyPercent copiedFiles totalFiles)
  else if final then
    some (if copiedBytes > 0 || copiedFiles > 0 then 100 else 0)
  else none

/-- The percentage formula claimed by the specification:
`floor(100 × copied / total)` clamped to 100 (exact rational floor,
which is natural-number division here). -/
def specFloorPercent (copied total : ℕ) : ℕ :=
  min 100 (100 * copied / total)

/-- A filesystem in which every path exists and resolution is the
identity, used for concrete instances. -/
def fsAll : FS := { pathExists := fun _ => true, resolve := id }

/-! ## Theorems -/

/-- C1: for every process exit code, an exit code strictly below 8 is
classified as success (possibly with warnings) and an exit code of 8 or
above as failure; in particular exit code 3 classifies as success and
exit code 8 as failure. -/
theorem C1_exit_code_threshold :
    (∀ code : Int, (code < 8 → classifyExit code = RunOutcome.success)
      ∧ (8 ≤ code → classifyExit code = RunOutcome.failed))
    ∧ classifyExit 3 = RunOutcome.success ∧ classifyExit 8 = RunOutcome.failed := by
  refine ⟨fun code => ⟨fun h => ?_, fun h => ?_⟩, by decide, by decide⟩
  · unfold classifyExit
    rw [if_neg (not_le.mpr h)]
  · unfold classifyExit
    rw [if_pos h]

/-- Witness for C1 at the concrete exit codes 3 and 8. -/
theorem C1_exit_code_threshold_witness :
    classifyExit 3 = RunOutcome.success ∧ classifyExit 8 = RunOutcome.failed :=
  ⟨(C1_exit_code_threshold.1 3).1 (by decide), (C1_exit_code_threshold.1 8).2 (by decide)⟩

/-- C7: whenever the source resolves equal to the destination,
`build_plan` raises a `ValueError` (a validation failure), whatever the
other options are; no plan is produced. -/
theorem C7_same_resolved_source_dest_rejected
    (fs : FS) (src dst : PathC) (include_subdirs move_files mirror dry_run : Bool)
    (rc rw mt : Int) (da : DupAction) (incf : List String) (ifl : Bool)
    (excf : List String) (h : fs.resolve src = fs.resolve dst) :
    ∃ msg, build_plan fs src dst include_subdirs move_files mirror dry_run
      rc rw mt da incf ifl excf = .error msg := by
  unfold build_plan
  cases hpe : fs.pathExists src with
  | false => exact ⟨"Source does not exist.", by simp [hpe]⟩
  | true => exact ⟨"Source and destination must be different.", by simp [hpe, h]⟩

/-- Witness for C7: a concrete request whose source and destination
resolve to the same path is rejected. -/
theorem C7_same_resolved_source_dest_rejected_witness :
    ∃ msg, build_plan fsAll ["x"] ["x"] true true false false 1 1 4
      DupAction.ask [] true [] = .error msg :=
  C7_same_resolved_source_dest_rejected fsAll ["x"] ["x"] true true false false
    1 1 4 DupAction.ask [] true [] rfl

/-- The second character of `"/R:" ++ s` is `R`, so the string is never
the mirror flag. -/
theorem r_arg_ne_mir (s : String) : "/R:" ++ s ≠ "/MIR" := by
  intro h
  have h2 : ("/R:" ++ s).data.get? 1 = "/MIR".data.get? 1 := by rw [h]
  rw [String.data_append] at h2
  have h3 : ("/R:".data ++ s.data).get? 1 = some 'R' := rfl
  have h4 : "/MIR".data.get? 1 = some 'M' := rfl
  rw [h3, h4] at h2
  exact absurd (Option.some.inj h2) (by decide)

/-- The second character of `"/W:" ++ s` is `W`, so the string is never
the mirror flag. -/
theorem w_arg_ne_mir (s : String) : "/W:" ++ s ≠ "/MIR" := by
  intro h
  have h2 : ("/W:" ++ s).data.get? 1 = "/MIR".data.get? 1 := by rw [h]
  rw [String.data_append] at h2
  have h3 : ("/W:".data ++ s.data).get? 1 = some 'W' := rfl
  have h4 : "/MIR".data.get? 1 = some 'M' := rfl
  rw [h3, h4] at h2
  exact absurd (Option.some.inj h2) (by decide)

/-- The third character of `"/MT:" ++ s` is `T`, so the string is never
the mirror flag. -/
theorem mt_arg_ne_mir (s : String) : "/MT:" ++ s ≠ "/MIR" := by
  intro h
  have h2 : ("/MT:" ++ s).data.get? 2 = "/MIR".data.get? 2 := by rw [h]
  rw [String.data_append] at h2
  have h3 : ("/MT:".data ++ s.data).get? 2 = some 'T' := rfl
  have h4 : "/MIR".data.get? 2 = some 'I' := rfl
  rw [h3, h4] at h2
  exact absurd (Option.some.inj h2) (by decide)

/-- C4 counterexample: a request carrying an explicit file list with
`recurseSubdirs = true`, `moveNotCopy = true`, `mirror = false` produces
a plan whose arguments do NOT contain the recurse flag `/E` (the file
list forces `/LEV:1` instead), refuting the claim as universally stated
over requests. -/
theorem C4_counterexample :
    (build_plan fsAll ["srcA"] ["dstB"] true true false false 1 1 4 DupAction.ask
        ["f1.mov"] true []).map
      (fun p => (p.args.contains "/E", p.args.contains "/MOVE", p.args.contains "/MIR"))
      = .ok (false, true, false) := by rfl

/-- C4 (amended): for any request with `moveNotCopy = true`,
`recurseSubdirs = true`, `mirror = false` and no explicit file list, the
produced plan's arguments contain the recurse flag and the
delete-source-after-copy flag and never the mirror flag (given that no
excluded relative path is literally the mirror flag, which relative file
paths never are). -/
theorem C4_amended_flags (fs : FS) (src dst : PathC) (dry_run : Bool)
    (rc rw mt : Int) (da : DupAction) (ifl : Bool) (excf : List String)
    (hx : "/MIR" ∉ excf) (plan : RoboCopyPlan)
    (h : build_plan fs src dst true true false dry_run rc rw mt da [] ifl excf
          = .ok plan) :
    "/E" ∈ plan.args ∧ "/MOVE" ∈ plan.args ∧ "/MIR" ∉ plan.args := by
  have hR : "/MIR" ≠ "/R:" ++ toString (max rc 0) := Ne.symm (r_arg_ne_mir _)
  have hW : "/MIR" ≠ "/W:" ++ toString (max rw 0) := Ne.symm (w_arg_ne_mir _)
  have hM : "/MIR" ≠ "/MT:" ++ toString mt := Ne.symm (mt_arg_ne_mir _)
  unfold build_plan at h
  cases hpe : fs.pathExists src with
  | false => rw [hpe] at h; exact absurd h (by simp)
  | true =>
    rw [hpe] at h
    by_cases hres : fs.resolve src = fs.resolve dst
    · rw [if_pos hres] at h; exact absurd h (by simp)
    · rw [if_neg hres] at h
      simp only [Bool.not_true, Bool.false_eq_true, if_false, reduceIte] at h
      have hargs := congrArg RoboCopyPlan.args (Except.ok.inj h)
      rw [← hargs]
      refine ⟨by simp, by simp, ?_⟩
      cases dry_run <;> cases ifl <;> cases da <;>
        by_cases hmt : mt ≠ 0 ∧ mt > 0 <;>
        by_cases hex : excf.isEmpty = true <;>
        simp [hmt, hex, hR, hW, hM, hx]

/-- Witness for the amended C4 at a concrete request. -/
theorem C4_amended_flags_witness :
    ∃ plan, build_plan fsAll ["srcA"] ["dstB"] true true false false 1 1 4
        DupAction.ask [] true [] = .ok plan
      ∧ ("/E" ∈ plan.args ∧ "/MOVE" ∈ plan.args ∧ "/MIR" ∉ plan.args) :=
  ⟨_, rfl, C4_amended_flags fsAll ["srcA"] ["dstB"] false 1 1 4 DupAction.ask
    true [] (by simp) _ rfl⟩

/-- C5: whenever an explicit file list is given together with mirror
mode, or the explicit files do not all share the same parent directory,
plan building rejects the request with a validation message before any
plan (and hence before any filesystem mutation) is produced. -/
theorem C5_explicit_files_validation
    (fs : FS) (src dst : PathC) (source_files : List PathC)
    (include_subdirs move_files mirror dry_run : Bool)
    (rc rw mt : Int) (da : DupAction) (for_execution : Bool) (excf : List String)
    (hne : source_files ≠ [])
    (hbad : mirror = true
      ∨ ∃ p ∈ source_files, p.dropLast ≠ source_files.headI.dropLast) :
    ∃ msg, ui_build_plan fs src dst source_files include_subdirs move_files
      mirror dry_run rc rw mt da for_execution excf = .error msg := by
  unfold ui_build_plan
  by_cases hsd : (src.isEmpty || dst.isEmpty) = true
  · exact ⟨_, by rw [if_pos hsd]⟩
  · rw [if_neg hsd]
    have hne' : (!source_files.isEmpty) = true := by
      cases source_files with
      | nil => exact absurd rfl hne
      | cons a as => rfl
    rw [if_pos hne']
    by_cases hany :
        (source_files.any fun p => p.dropLast ≠ source_files.headI.dropLast) = true
    · exact ⟨_, by rw [if_pos hany]⟩
    · rcases hbad with hm | ⟨p, hp, hpne⟩
      · subst hm
        exact ⟨_, by rw [if_neg hany, if_pos rfl]⟩
      · exact absurd (List.any_eq_true.mpr ⟨p, hp, decide_eq_true hpne⟩) hany

/-- Witness for C5: one concrete file selection combined with mirror
mode, and one concrete mixed-parent selection, are both rejected. -/
theorem C5_explicit_files_validation_witness :
    (∃ msg, ui_build_plan fsAll ["s"] ["d"] [["a", "f1"]] true true true false
      1 1 4 DupAction.ask true [] = .error msg)
    ∧ (∃ msg, ui_build_plan fsAll ["s"] ["d"] [["a", "f1"], ["b", "f2"]] true
      true false false 1 1 4 DupAction.ask true [] = .error msg) :=
  ⟨C5_explicit_files_validation fsAll ["s"] ["d"] [["a", "f1"]] true true true
      false 1 1 4 DupAction.ask true [] (by simp) (Or.inl rfl),
   C5_explicit_files_validation fsAll ["s"] ["d"] [["a", "f1"], ["b", "f2"]] true
      true false false 1 1 4 DupAction.ask true [] (by simp)
      (Or.inr ⟨["b", "f2"], by simp, by simp⟩)⟩

/-- Every step of the explicit-file scan loop leaves the accumulator
unchanged when the file no longer exists. -/
theorem foldl_skip_all (fs : ScanFS) (base dst : PathC) (lim : Nat) (rp : Bool) :
    ∀ (files : List PathC) (acc : Nat × List PathC × List (PathC × PathC)),
      (∀ f ∈ files, fs.pathExists f = false) →
      files.foldl
        (fun acc f =>
          if !(fs.pathExists f) then acc
          else dupStep fs base dst lim rp acc f) acc = acc := by
  intro files
  induction files with
  | nil => intro acc _; rfl
  | cons f fsx ih =>
    intro acc h
    have hf : fs.pathExists f = false := h f (List.mem_cons_self f fsx)
    simp only [List.foldl_cons, hf]
    exact ih acc (fun g hg => h g (List.mem_cons_of_mem f hg))

/-- C8: a scan whose selection root or destination root does not exist
returns the empty result (count 0, empty sample, empty pair list) rather
than an error; for an explicit-file scan this covers a missing
destination root and a selection whose files all ceased to exist. -/
theorem C8_scan_missing_roots :
    (∀ (fs : ScanFS) (src dst : PathC) (subs : Bool) (lim : Nat) (rp : Bool),
        fs.pathExists src = false ∨ fs.pathExists dst = false →
        find_duplicates fs src dst subs lim rp = (0, [], []))
    ∧ (∀ (fs : ScanFS) (files : List PathC) (dst : PathC) (lim : Nat) (rp : Bool),
        fs.pathExists dst = false →
        find_duplicates_for_files fs files dst lim rp = (0, [], []))
    ∧ (∀ (fs : ScanFS) (files : List PathC) (dst : PathC) (lim : Nat) (rp : Bool),
        (∀ f ∈ files, fs.pathExists f = false) →
        find_duplicates_for_files fs files dst lim rp = (0, [], [])) := by
  refine ⟨?_, ?_, ?_⟩
  · intro fs src dst subs lim rp h
    unfold find_duplicates
    rcases h with h | h <;> simp [h]
  · intro fs files dst lim rp h
    unfold find_duplicates_for_files
    simp [h]
  · intro fs files dst lim rp h
    unfold find_duplicates_for_files
    by_cases hc : (files.isEmpty || !(fs.pathExists dst)) = true
    · rw [if_pos hc]
    · rw [if_neg hc]
      exact foldl_skip_all fs files.headI.dropLast dst lim rp files (0, [], []) h

/-- Witness for C8 at a concrete filesystem with a missing destination. -/
theorem C8_scan_missing_roots_witness :
    find_duplicates ⟨fun p => p = ["srcA"], fun _ _ => [["srcA", "f"]]⟩
      ["srcA"] ["gone"] true 12 true = (0, [], []) :=
  C8_scan_missing_roots.1 ⟨fun p => p = ["srcA"], fun _ _ => [["srcA", "f"]]⟩
    ["srcA"] ["gone"] true 12 true (Or.inr (by simp))

/-- Decimal digit characters of `n`, most significant first. -/
def decRev (n : Nat) : List Char :=
  ((Nat.digits 10 n).map Nat.digitChar).reverse

/-- Core's fueled decimal printer computes the digit-character list,
given enough fuel. -/
theorem toDigitsCore_eq_decRev :
    ∀ (fuel n : Nat) (ds : List Char), n < fuel →
      Nat.toDigitsCore 10 fuel n ds = (if n = 0 then ['0'] else decRev n) ++ ds := by
  intro fuel
  induction fuel with
  | zero => intro n ds h; exact absurd h (Nat.not_lt_zero n)
  | succ fuel ih =>
    intro n ds h
    simp only [Nat.toDigitsCore]
    by_cases hn10 : n / 10 = 0
    · rw [if_pos hn10]
      by_cases hn : n = 0
      · subst hn; rfl
      · have hlt : n < 10 := by
          rcases Nat.lt_or_ge n 10 with h10 | h10
          · exact h10
          · exact absurd hn10 (by
              have := Nat.div_le_div_right (c := 10) h10
              simp at this
              omega)
        rw [if_neg hn]
        unfold decRev
        rw [Nat.digits_of_lt 10 n hn hlt]
        simp [Nat.mod_eq_of_lt hlt]
    · have hnz : n ≠ 0 := by
        intro hc; subst hc; simp at hn10
      have hge : 10 ≤ n := by
        rcases Nat.lt_or_ge n 10 with h10 | h10
        · exact absurd (Nat.div_eq_of_lt h10) hn10
        · exact h10
      rw [if_neg hn10]
      have hfuel : n / 10 < fuel := by
        have h1 : n / 10 < n := Nat.div_lt_self (by omega) (by omega)
        omega
      rw [ih (n / 10) (Nat.digitChar (n % 10) :: ds) hfuel, if_neg hn10, if_neg hnz]
      have hdig : decRev n = decRev (n / 10) ++ [Nat.digitChar (n % 10)] := by
        unfold decRev
        rw [Nat.digits_def' (by norm_num : (1 : ℕ) < 10) (Nat.pos_of_ne_zero hnz)]
        simp
      rw [hdig, List.append_assoc]
      rfl

/-- `Nat.repr` in terms of the mathematical digit expansion. -/
theorem repr_eq_decRev (n : Nat) :
    Nat.repr n = (if n = 0 then ['0'] else decRev n).asString := by
  unfold Nat.repr Nat.toDigits
  rw [toDigitsCore_eq_decRev (n + 1) n [] (Nat.lt_succ_self n), List.append_nil]

/-- `Nat.digitChar` is injective below the base 10. -/
theorem digitChar_inj_lt :
    ∀ d, d < 10 → ∀ e, e < 10 → Nat.digitChar d = Nat.digitChar e → d = e := by decide

/-- Mapping `Nat.digitChar` over digit lists (entries `< 10`) is
injective. -/
theorem map_digitChar_inj :
    ∀ (l1 l2 : List Nat), (∀ x ∈ l1, x < 10) → (∀ x ∈ l2, x < 10) →
      l1.map Nat.digitChar = l2.map Nat.digitChar → l1 = l2 := by
  intro l1
  induction l1 with
  | nil =>
    intro l2 _ _ h
    cases l2 with
    | nil => rfl
    | cons b bs => simp at h
  | cons a as ih =>
    intro l2 h1 h2 h
    cases l2 with
    | nil => simp at h
    | cons b bs =>
      simp only [List.map_cons, List.cons.injEq] at h
      have ha := h1 a (List.mem_cons_self _ _)
      have hb := h2 b (List.mem_cons_self _ _)
      rw [digitChar_inj_lt a ha b hb h.1,
        ih bs (fun x hx => h1 x (List.mem_cons_of_mem _ hx))
          (fun x hx => h2 x (List.mem_cons_of_mem _ hx)) h.2]

/-- Equal character data means equal strings. -/
theorem string_data_inj {s t : String} (h : s.data = t.data) : s = t := by
  cases s with
  | mk a =>
    cases t with
    | mk b => exact congrArg String.mk h

/-- The decimal rendering of a natural number determines it. -/
theorem nat_repr_injective : Function.Injective Nat.repr := by
  intro m n h
  rw [repr_eq_decRev, repr_eq_decRev] at h
  have h2 : (if m = 0 then ['0'] else decRev m)
      = (if n = 0 then ['0'] else decRev n) := congrArg String.data h
  have digits_of_singleton_zero : ∀ k, k ≠ 0 → decRev k ≠ ['0'] := by
    intro k hk hc
    have hrev : (Nat.digits 10 k).map Nat.digitChar = ['0'] := by
      have := congrArg List.reverse hc
      simpa [decRev] using this
    have hdig : Nat.digits 10 k = [0] :=
      map_digitChar_inj _ [0]
        (fun x hx => Nat.digits_lt_base (by norm_num) hx)
        (by intro x hx; simp at hx; omega) hrev
    have := Nat.ofDigits_digits 10 k
    rw [hdig] at this
    simp [Nat.ofDigits_singleton] at this
    exact hk this.symm
  by_cases hm : m = 0 <;> by_cases hn : n = 0
  · rw [hm, hn]
  · rw [if_pos hm, if_neg hn] at h2
    exact absurd h2.symm (digits_of_singleton_zero n hn)
  · rw [if_neg hm, if_pos hn] at h2
    exact absurd h2 (digits_of_singleton_zero m hm)
  · rw [if_neg hm, if_neg hn] at h2
    have h3 : (Nat.digits 10 m).map Nat.digitChar
        = (Nat.digits 10 n).map Nat.digitChar := by
      have := congrArg List.reverse h2
      simpa [decRev] using this
    exact Nat.digits.injective 10
      (map_digitChar_inj _ _
        (fun x hx => Nat.digits_lt_base (by norm_num) hx)
        (fun x hx => Nat.digits_lt_base (by norm_num) hx) h3)

/-- Distinct probe indexes produce distinct probe names. -/
theorem candidateLeaf_inj (stem sfx : String) :
    Function.Injective (candidateLeaf stem sfx) := by
  intro i j h
  apply nat_repr_injective
  unfold candidateLeaf at h
  have h2 := congrArg String.data h
  simp only [String.data_append] at h2
  have h3 := List.append_cancel_right h2
  have h4 := List.append_cancel_right h3
  have h5 := List.append_cancel_left h4
  exact string_data_inj h5

/-- Pigeonhole: among any `ex.length + 1` consecutive probe names, at
least one full path is not in `ex`. -/
theorem exists_free_idx (ex : List PathC) (parent : PathC) (stem sfx : String)
    (start : Nat) :
    ∃ k, k < ex.length + 1
      ∧ ex.contains (parent ++ [candidateLeaf stem sfx (start + k)]) = false := by
  by_contra hc
  push_neg at hc
  have hall : ∀ k, k < ex.length + 1 →
      (parent ++ [candidateLeaf stem sfx (start + k)]) ∈ ex := by
    intro k hk
    have := hc k hk
    have hb : ex.contains (parent ++ [candidateLeaf stem sfx (start + k)]) = true := by
      cases hcc : ex.contains (parent ++ [candidateLeaf stem sfx (start + k)])
      · exact absurd hcc this
      · rfl
    simpa using hb
  set f : Nat → PathC := fun k => parent ++ [candidateLeaf stem sfx (start + k)] with hf
  have hinj : Function.Injective f := by
    intro a b hab
    have h1 : candidateLeaf stem sfx (start + a) = candidateLeaf stem sfx (start + b) := by
      have := List.append_cancel_left hab
      simpa using this
    have := candidateLeaf_inj stem sfx h1
    omega
  set L : List PathC := (List.range (ex.length + 1)).map f with hL
  have hnodup : L.Nodup := (List.nodup_range _).map hinj
  have hsub : L.toFinset ⊆ ex.toFinset := by
    intro x hx
    rw [List.mem_toFinset] at hx ⊢
    rw [hL, List.mem_map] at hx
    obtain ⟨k, hk, hkx⟩ := hx
    rw [List.mem_range] at hk
    rw [← hkx]
    exact hall k hk
  have hcard : L.toFinset.card = ex.length + 1 := by
    rw [List.toFinset_card_of_nodup hnodup, hL, List.length_map, List.length_range]
  have hle : L.toFinset.card ≤ ex.length :=
    le_trans (Finset.card_le_card hsub) (List.toFinset_card_le ex)
  omega

/-- The probing loop returns the first free probe name at or after its
start index, given that a free index exists within the fuel. -/
theorem searchAvailable_some (ex : List PathC) (parent : PathC) (stem sfx : String) :
    ∀ (fuel start : Nat),
      (∃ k, k < fuel
        ∧ ex.contains (parent ++ [candidateLeaf stem sfx (start + k)]) = false) →
      ∃ i, start ≤ i
        ∧ searchAvailable ex parent stem sfx start fuel
            = some (parent ++ [candidateLeaf stem sfx i])
        ∧ ex.contains (parent ++ [candidateLeaf stem sfx i]) = false
        ∧ ∀ j, start ≤ j → j < i →
            ex.contains (parent ++ [candidateLeaf stem sfx j]) = true := by
  intro fuel
  induction fuel with
  | zero =>
    intro start h
    obtain ⟨k, hk, _⟩ := h
    exact absurd hk (Nat.not_lt_zero k)
  | succ fuel ih =>
    intro start h
    unfold searchAvailable
    cases hc : ex.contains (parent ++ [candidateLeaf stem sfx start]) with
    | false =>
      refine ⟨start, le_refl _, by rw [if_neg (by rw [hc]; exact Bool.false_ne_true)], hc, ?_⟩
      intro j h1 h2
      omega
    | true =>
      rw [if_pos hc]
      obtain ⟨k, hk, hkf⟩ := h
      have hk0 : k ≠ 0 := by
        intro hc0
        subst hc0
        rw [Nat.add_zero] at hkf
        rw [hc] at hkf
        exact Bool.noConfusion hkf
      obtain ⟨k', rfl⟩ : ∃ k', k = k' + 1 := ⟨k - 1, by omega⟩
      have hx : ∃ k2, k2 < fuel
          ∧ ex.contains (parent ++ [candidateLeaf stem sfx (start + 1 + k2)]) = false := by
        refine ⟨k', by omega, ?_⟩
        have : start + 1 + k' = start + (k' + 1) := by omega
        rw [this]
        exact hkf
      obtain ⟨i, hi1, hi2, hi3, hi4⟩ := ih (start + 1) hx
      refine ⟨i, by omega, hi2, hi3, ?_⟩
      intro j h1 h2
      rcases Nat.eq_or_lt_of_le h1 with rfl | hlt
      · exact hc
      · exact hi4 j (by omega) h2

/-- The fuel chosen in `next_available_path` always suffices: probing
always finds a free name. -/
theorem next_available_path_isSome (ex : List PathC) (dst : PathC) :
    ∃ p, next_available_path ex dst = some p := by
  unfold next_available_path
  cases hc : ex.contains dst with
  | false => exact ⟨dst, by simp⟩
  | true =>
    simp only [hc, Bool.not_true, Bool.false_eq_true, if_false]
    obtain ⟨k, hk, hkf⟩ := exists_free_idx ex dst.dropLast
      (splitStem (lastName dst)).1 (splitStem (lastName dst)).2 1
    obtain ⟨i, _, hi2, _, _⟩ := searchAvailable_some ex dst.dropLast
      (splitStem (lastName dst)).1 (splitStem (lastName dst)).2
      (ex.length + 1) 1 ⟨k, hk, hkf⟩
    exact ⟨_, hi2⟩

/-- One rename step, started from zeroed counters, shifts an arbitrary
count/error accumulator additively. -/
theorem applyStep_shift (move : Bool) (st : RenameWorld × Nat × List String)
    (pr : PathC × PathC) :
    applyStep move st pr
      = ((applyStep move (st.1, 0, []) pr).1,
         st.2.1 + (applyStep move (st.1, 0, []) pr).2.1,
         st.2.2 ++ (applyStep move (st.1, 0, []) pr).2.2) := by
  obtain ⟨w, c, e⟩ := st
  obtain ⟨src, dst⟩ := pr
  unfold applyStep
  by_cases hex : w.ex.contains src = true
  · simp only [hex, Bool.not_true, Bool.false_eq_true, if_false]
    cases hmk : w.mkdirErr dst.dropLast with
    | some msg => simp [hmk]
    | none =>
      cases hna : next_available_path (afterMkdir w dst.dropLast).ex dst with
      | none => simp [hmk, hna]
      | some final =>
        cases hmv : w.moveErr src final with
        | some msg => simp [hmk, hna, hmv]
        | none => simp [hmk, hna, hmv]
  · have hex2 : w.ex.contains src = false := by
      cases h2 : w.ex.contains src
      · rfl
      · exact absurd h2 hex
    have hmem : src ∉ w.ex := by simpa using hex2
    simp [hmem]

/-- Trichotomy of one rename step: a pair whose source is gone is
skipped with the state unchanged; otherwise it either succeeds (count
increments by one) or fails (exactly one formatted error string is
appended), and in both cases processing continues from the new state. -/
theorem applyStep_cases (move : Bool) (w : RenameWorld) (c : Nat)
    (e : List String) (pr : PathC × PathC) :
    (w.ex.contains pr.1 = false → applyStep move (w, c, e) pr = (w, c, e))
    ∧ (w.ex.contains pr.1 = true →
        (∃ w', applyStep move (w, c, e) pr = (w', c + 1, e))
        ∨ (∃ w' msg, applyStep move (w, c, e) pr
            = (w', c, e ++ [pathStr pr.1 ++ " -> " ++ pathStr pr.2 ++ ": " ++ msg]))) := by
  obtain ⟨src, dst⟩ := pr
  constructor
  · intro hex
    have hex' : w.ex.contains src = false := hex
    have hmem : src ∉ w.ex := by simpa using hex'
    simp [applyStep, hmem]
  · intro hex
    have hex' : w.ex.contains src = true := hex
    unfold applyStep
    simp only [hex', Bool.not_true, Bool.false_eq_true, if_false]
    cases hmk : w.mkdirErr dst.dropLast with
    | some msg => exact Or.inr ⟨w, msg, by simp [hmk]⟩
    | none =>
      cases hna : next_available_path (afterMkdir w dst.dropLast).ex dst with
      | none =>
        obtain ⟨p, hp⟩ := next_available_path_isSome (afterMkdir w dst.dropLast).ex dst
        rw [hna] at hp
        exact Option.noConfusion hp
      | some final =>
        cases hmv : w.moveErr src final with
        | some msg =>
          exact Or.inr ⟨afterMkdir w dst.dropLast, msg, by simp [hmk, hna, hmv]⟩
        | none =>
          refine Or.inl ⟨{ afterMkdir w dst.dropLast with
            ex := if move then
                ((afterMkdir w dst.dropLast).ex.filter (fun q => q ≠ src)) ++ [final]
              else (afterMkdir w dst.dropLast).ex ++ [final] }, ?_⟩
          simp [hmk, hna, hmv]

/-- Folding the rename step over a pair list from an arbitrary
accumulator adds the counts and appends the error lists produced from
the zeroed accumulator. -/
theorem foldl_applyStep_shift (move : Bool) :
    ∀ (pairs : List (PathC × PathC)) (st : RenameWorld × Nat × List String),
      pairs.foldl (applyStep move) st
        = ((pairs.foldl (applyStep move) (st.1, 0, [])).1,
           st.2.1 + (pairs.foldl (applyStep move) (st.1, 0, [])).2.1,
           st.2.2 ++ (pairs.foldl (applyStep move) (st.1, 0, [])).2.2) := by
  intro pairs
  induction pairs with
  | nil => intro st; simp
  | cons p ps ih =>
    intro st
    rw [List.foldl_cons, List.foldl_cons, ih (applyStep move st p),
      ih (applyStep move (st.1, 0, []) p), applyStep_shift move st p]
    simp [Nat.add_assoc, List.append_assoc]

/-- Running total: successes plus failures never exceed the number of
pairs processed. -/
theorem foldl_applyStep_le (move : Bool) :
    ∀ (pairs : List (PathC × PathC)) (w : RenameWorld),
      (pairs.foldl (applyStep move) (w, 0, [])).2.1
        + (pairs.foldl (applyStep move) (w, 0, [])).2.2.length ≤ pairs.length := by
  intro pairs
  induction pairs with
  | nil => intro w; simp
  | cons p ps ih =>
    intro w
    rw [List.foldl_cons, foldl_applyStep_shift move ps (applyStep move (w, 0, []) p)]
    have hstep := applyStep_cases move w 0 [] p
    by_cases hex : w.ex.contains p.1 = true
    · rcases hstep.2 hex with ⟨w', hw'⟩ | ⟨w', msg, hw'⟩ <;> rw [hw'] <;> simp <;>
        have h := ih w' <;> omega
    · have hex' : w.ex.contains p.1 = false := by
        cases h2 : w.ex.contains p.1
        · rfl
        · exact absurd h2 hex
      rw [hstep.1 hex']
      simp only [List.length_cons]
      have h := ih w
      simp at h ⊢
      omega

/-- C9: the rename job processes all pairs even when some fail: its
result over a split pair list is the per-part counts summed and the
per-part error lists concatenated (a failure in the first part never
aborts the second), and every collected error is the
`"<source> -> <dest>: <message>"` rendering of one of the pairs. -/
theorem C9_rename_isolation :
    (∀ (w : RenameWorld) (move : Bool) (pairs1 pairs2 : List (PathC × PathC)),
        apply_duplicate_renames w move (pairs1 ++ pairs2)
          = ((apply_duplicate_renames w move pairs1).1
               + (apply_duplicate_renames (worldAfter w move pairs1) move pairs2).1,
             (apply_duplicate_renames w move pairs1).2
               ++ (apply_duplicate_renames (worldAfter w move pairs1) move pairs2).2))
    ∧ (∀ (w : RenameWorld) (move : Bool) (pairs : List (PathC × PathC)),
        ∀ e ∈ (apply_duplicate_renames w move pairs).2,
          ∃ pr ∈ pairs, ∃ msg,
            e = pathStr pr.1 ++ " -> " ++ pathStr pr.2 ++ ": " ++ msg) := by
  constructor
  · intro w move p1 p2
    unfold apply_duplicate_renames worldAfter
    rw [List.foldl_append,
      foldl_applyStep_shift move p2 (p1.foldl (applyStep move) (w, 0, []))]
  · intro w move pairs
    induction pairs generalizing w with
    | nil =>
      intro e he
      simp [apply_duplicate_renames] at he
    | cons p ps ih =>
      intro e he
      unfold apply_duplicate_renames at he
      rw [List.foldl_cons,
        foldl_applyStep_shift move ps (applyStep move (w, 0, []) p)] at he
      rw [List.mem_append] at he
      rcases he with he | he
      · have hstep := applyStep_cases move w 0 [] p
        by_cases hex : w.ex.contains p.1 = true
        · rcases hstep.2 hex with ⟨w', hw'⟩ | ⟨w', msg, hw'⟩
          · rw [hw'] at he
            simp at he
          · rw [hw'] at he
            simp at he
            exact ⟨p, List.mem_cons_self _ _, msg, he⟩
        · have hex' : w.ex.contains p.1 = false := by
            cases h2 : w.ex.contains p.1
            · rfl
            · exact absurd h2 hex
          rw [hstep.1 hex'] at he
          simp at he
      · obtain ⟨pr, hpr, msg, hmsg⟩ := ih ((applyStep move (w, 0, []) p).1) e he
        exact ⟨pr, List.mem_cons_of_mem _ hpr, msg, hmsg⟩

/-- A world whose single existing path is the source of the pair below,
and where every move raises: exercises the error-collection path. -/
def wFail : RenameWorld :=
  { ex := [["s", "a"]], mkdirErr := fun _ => none, moveErr := fun _ _ => some "boom" }

/-- An empty world: no path exists, so every pair is skipped. -/
def wEmpty : RenameWorld :=
  { ex := [], mkdirErr := fun _ => none, moveErr := fun _ _ => none }

/-- Witness for C9: a concrete failing pair yields exactly the formatted
error string, traced back to its pair. -/
theorem C9_rename_isolation_witness :
    ∃ pr ∈ [((["s", "a"] : PathC), (["d", "a"] : PathC))], ∃ msg,
      "s/a -> d/a: boom" = pathStr pr.1 ++ " -> " ++ pathStr pr.2 ++ ": " ++ msg :=
  C9_rename_isolation.2 wFail true [(["s", "a"], ["d", "a"])]
    "s/a -> d/a: boom" (by decide)

/-- C10: for every pair list, the returned count plus the number of
collected errors never exceeds the number of pairs — each pair
contributes to exactly one of the success count, the error list, or is
skipped — and a pair is skipped (state fully unchanged) exactly when its
source path no longer exists at the moment it is processed. -/
theorem C10_rename_accounting :
    (∀ (w : RenameWorld) (move : Bool) (pairs : List (PathC × PathC)),
        (apply_duplicate_renames w move pairs).1
          + (apply_duplicate_renames w move pairs).2.length ≤ pairs.length)
    ∧ (∀ (move : Bool) (w : RenameWorld) (c : Nat) (e : List String)
        (pr : PathC × PathC),
        (w.ex.contains pr.1 = false → applyStep move (w, c, e) pr = (w, c, e))
        ∧ (w.ex.contains pr.1 = true →
            (∃ w', applyStep move (w, c, e) pr = (w', c + 1, e))
            ∨ (∃ w' msg, applyStep move (w, c, e) pr
                = (w', c, e ++ [pathStr pr.1 ++ " -> " ++ pathStr pr.2 ++ ": " ++ msg])))) := by
  constructor
  · intro w move pairs
    exact foldl_applyStep_le move pairs w
  · intro move w c e pr
    exact applyStep_cases move w c e pr

/-- Witness for C10: a pair with a vanished source is skipped verbatim,
and a pair whose move raises lands in the error branch of the
trichotomy. -/
theorem C10_rename_accounting_witness :
    applyStep true (wEmpty, 0, []) (["s"], ["d"]) = (wEmpty, 0, [])
    ∧ ((∃ w', applyStep true (wFail, 0, []) (["s", "a"], ["d", "a"]) = (w', 0 + 1, []))
       ∨ (∃ w' msg, applyStep true (wFail, 0, []) (["s", "a"], ["d", "a"])
           = (w', 0, [] ++ [pathStr (["s", "a"] : PathC) ++ " -> "
               ++ pathStr (["d", "a"] : PathC) ++ ": " ++ msg]))) :=
  ⟨(C10_rename_accounting.2 true wEmpty 0 [] (["s"], ["d"])).1 (by decide),
   (C10_rename_accounting.2 true wFail 0 [] (["s", "a"], ["d", "a"])).2 (by decide)⟩

/-- The `i`-th probe path for a destination: same directory, name
`stem (i)suffix`. -/
def probePath (dst : PathC) (i : Nat) : PathC :=
  dst.dropLast
    ++ [candidateLeaf (splitStem (lastName dst)).1 (splitStem (lastName dst)).2 i]

/-- C6: collision-free naming — a free destination is returned
unchanged; an occupied one is replaced by `stem (i)suffix` for the least
`i ≥ 1` whose name is free, every smaller index being occupied; in
particular `clip.mov` stays `clip.mov` when absent, becomes
`clip (1).mov` when present, and `clip (2).mov` when both are present. -/
theorem C6_next_available_naming :
    (∀ (ex : List PathC) (dst : PathC),
       (ex.contains dst = false → next_available_path ex dst = some dst)
       ∧ (ex.contains dst = true →
           ∃ i, 1 ≤ i
             ∧ next_available_path ex dst = some (probePath dst i)
             ∧ ex.contains (probePath dst i) = false
             ∧ ∀ j, 1 ≤ j → j < i → ex.contains (probePath dst j) = true))
    ∧ next_available_path [] ["d", "clip.mov"] = some ["d", "clip.mov"]
    ∧ next_available_path [["d", "clip.mov"]] ["d", "clip.mov"]
        = some ["d", "clip (1).mov"]
    ∧ next_available_path [["d", "clip.mov"], ["d", "clip (1).mov"]] ["d", "clip.mov"]
        = some ["d", "clip (2).mov"] := by
  refine ⟨?_, by decide, by decide, by decide⟩
  intro ex dst
  constructor
  · intro hc
    unfold next_available_path
    rw [hc]
    rfl
  · intro hc
    unfold next_available_path
    simp only [hc, Bool.not_true, Bool.false_eq_true, if_false]
    obtain ⟨k, hk, hkf⟩ := exists_free_idx ex dst.dropLast
      (splitStem (lastName dst)).1 (splitStem (lastName dst)).2 1
    obtain ⟨i, hi1, hi2, hi3, hi4⟩ := searchAvailable_some ex dst.dropLast
      (splitStem (lastName dst)).1 (splitStem (lastName dst)).2
      (ex.length + 1) 1 ⟨k, hk, hkf⟩
    exact ⟨i, hi1, hi2, hi3, fun j h1 h2 => hi4 j h1 h2⟩

/-- Witness for C6 at the occupied `clip.mov` destination. -/
theorem C6_next_available_naming_witness :
    ∃ i, 1 ≤ i
      ∧ next_available_path [["d", "clip.mov"]] ["d", "clip.mov"]
          = some (probePath ["d", "clip.mov"] i)
      ∧ ([["d", "clip.mov"]] : List PathC).contains (probePath ["d", "clip.mov"] i)
          = false
      ∧ ∀ j, 1 ≤ j → j < i →
          ([["d", "clip.mov"]] : List PathC).contains (probePath ["d", "clip.mov"] j)
            = true :=
  (C6_next_available_naming.1 [["d", "clip.mov"]] ["d", "clip.mov"]).2 (by decide)

/-- A non-terminator character is neither LF nor CR. -/
theorem noTerm_ne {x : Char} (h : isLineTerm x = false) : x ≠ '\n' ∧ x ≠ '\r' := by
  unfold isLineTerm at h
  constructor <;> intro hc <;> subst hc <;> simp at h

/-- Unfolding equation: a leading LF closes an empty line. -/
theorem splitLinesKeep_cons_newline (rest : List Char) :
    splitLinesKeep ('\n' :: rest) = ['\n'] :: splitLinesKeep rest := by
  cases rest with
  | nil => rfl
  | cons a b => rfl

/-- Unfolding equation: a leading CRLF closes an empty line. -/
theorem splitLinesKeep_cons_crlf (rest : List Char) :
    splitLinesKeep ('\r' :: '\n' :: rest) = ['\r', '\n'] :: splitLinesKeep rest := rfl

/-- Unfolding equation: a leading CR not followed by LF closes an empty
line. -/
theorem splitLinesKeep_cons_cr (c2 : Char) (rest2 : List Char) (hc2 : c2 ≠ '\n') :
    splitLinesKeep ('\r' :: c2 :: rest2) = ['\r'] :: splitLinesKeep (c2 :: rest2) := by
  simp [splitLinesKeep, hc2]

/-- Unfolding equation: a single CR is one line. -/
theorem splitLinesKeep_cr_nil : splitLinesKeep ['\r'] = [['\r']] := rfl

/-- Unfolding equation: a leading ordinary character extends the first
line of the remainder. -/
theorem splitLinesKeep_cons_other (c : Char) (rest : List Char)
    (h1 : c ≠ '\n') (h2 : c ≠ '\r') :
    splitLinesKeep (c :: rest)
      = (match splitLinesKeep rest with
         | [] => [[c]]
         | l :: ls => (c :: l) :: ls) := by
  cases rest with
  | nil => simp [splitLinesKeep, h1, h2]
  | cons a b => simp [splitLinesKeep, h1, h2]

/-- Splitting a nonempty chunk yields at least one line. -/
theorem splitLinesKeep_ne_nil (c : Char) (rest : List Char) :
    splitLinesKeep (c :: rest) ≠ [] := by
  by_cases h1 : c = '\n'
  · subst h1
    rw [splitLinesKeep_cons_newline]
    simp
  · by_cases h2 : c = '\r'
    · subst h2
      cases rest with
      | nil => rw [splitLinesKeep_cr_nil]; simp
      | cons c2 rest2 =>
        by_cases h3 : c2 = '\n'
        · subst h3
          rw [splitLinesKeep_cons_crlf]
          simp
        · rw [splitLinesKeep_cons_cr c2 rest2 h3]
          simp
    · rw [splitLinesKeep_cons_other c rest h1 h2]
      cases h4 : splitLinesKeep rest <;> simp

/-- A chunk splits into no lines exactly when it is empty. -/
theorem splitLinesKeep_eq_nil_iff (buf : List Char) :
    splitLinesKeep buf = [] ↔ buf = [] := by
  cases buf with
  | nil => simp [splitLinesKeep]
  | cons c rest =>
    exact ⟨fun h => absurd h (splitLinesKeep_ne_nil c rest),
      fun h => absurd h (List.cons_ne_nil c rest)⟩

/-- An LF after a terminator-free prefix closes exactly one line. -/
theorem splitLinesKeep_append_newline (B rest : List Char)
    (hB : ∀ x ∈ B, isLineTerm x = false) :
    splitLinesKeep (B ++ '\n' :: rest) = (B ++ ['\n']) :: splitLinesKeep rest := by
  induction B with
  | nil =>
    rw [List.nil_append, splitLinesKeep_cons_newline]
    rfl
  | cons b B ih =>
    have hb := noTerm_ne (hB b (List.mem_cons_self _ _))
    have ih' := ih (fun x hx => hB x (List.mem_cons_of_mem _ hx))
    rw [List.cons_append, splitLinesKeep_cons_other b _ hb.1 hb.2, ih']
    rfl

/-- A CRLF pair after a terminator-free prefix closes exactly one line. -/
theorem splitLinesKeep_append_crlf (B rest : List Char)
    (hB : ∀ x ∈ B, isLineTerm x = false) :
    splitLinesKeep (B ++ '\r' :: '\n' :: rest)
      = (B ++ ['\r', '\n']) :: splitLinesKeep rest := by
  induction B with
  | nil =>
    rw [List.nil_append, splitLinesKeep_cons_crlf]
    rfl
  | cons b B ih =>
    have hb := noTerm_ne (hB b (List.mem_cons_self _ _))
    have ih' := ih (fun x hx => hB x (List.mem_cons_of_mem _ hx))
    rw [List.cons_append, splitLinesKeep_cons_other b _ hb.1 hb.2, ih']
    rfl

/-- A lone CR (not followed by LF) after a terminator-free prefix closes
exactly one line. -/
theorem splitLinesKeep_append_cr (B rest : List Char)
    (hB : ∀ x ∈ B, isLineTerm x = false)
    (hrest : rest = [] ∨ ∃ c2 rest2, rest = c2 :: rest2 ∧ c2 ≠ '\n') :
    splitLinesKeep (B ++ '\r' :: rest) = (B ++ ['\r']) :: splitLinesKeep rest := by
  induction B with
  | nil =>
    rcases hrest with rfl | ⟨c2, rest2, rfl, hc2⟩
    · rw [List.nil_append, splitLinesKeep_cr_nil]
      rfl
    · rw [List.nil_append, splitLinesKeep_cons_cr c2 rest2 hc2]
      rfl
  | cons b B ih =>
    have hb := noTerm_ne (hB b (List.mem_cons_self _ _))
    have ih' := ih (fun x hx => hB x (List.mem_cons_of_mem _ hx))
    rw [List.cons_append, splitLinesKeep_cons_other b _ hb.1 hb.2, ih']
    rfl

/-- A nonempty terminator-free chunk is one single unterminated line. -/
theorem splitLinesKeep_of_noTerm (B : List Char)
    (hB : ∀ x ∈ B, isLineTerm x = false) (hne : B ≠ []) :
    splitLinesKeep B = [B] := by
  induction B with
  | nil => exact absurd rfl hne
  | cons b B ih =>
    have hb := noTerm_ne (hB b (List.mem_cons_self _ _))
    rw [splitLinesKeep_cons_other b B hb.1 hb.2]
    by_cases hBe : B = []
    · subst hBe
      rfl
    · rw [ih (fun x hx => hB x (List.mem_cons_of_mem _ hx)) hBe]

/-- A line ending in LF is terminated. -/
theorem endsWithTerm_concat_newline (B : List Char) :
    endsWithTerm (B ++ ['\n']) = true := by
  unfold endsWithTerm
  rw [List.getLast?_concat]
  rfl

/-- A line ending in CR is terminated. -/
theorem endsWithTerm_concat_cr (B : List Char) :
    endsWithTerm (B ++ ['\r']) = true := by
  unfold endsWithTerm
  rw [List.getLast?_concat]
  rfl

/-- A line ending in CRLF is terminated. -/
theorem endsWithTerm_concat_crlf (B : List Char) :
    endsWithTerm (B ++ ['\r', '\n']) = true := by
  have h : B ++ ['\r', '\n'] = (B ++ ['\r']) ++ ['\n'] := by simp
  rw [h]
  exact endsWithTerm_concat_newline _

/-- A terminator-free chunk is not terminated. -/
theorem endsWithTerm_of_noTerm (B : List Char)
    (hB : ∀ x ∈ B, isLineTerm x = false) : endsWithTerm B = false := by
  unfold endsWithTerm
  cases hB' : B.getLast? with
  | none => rfl
  | some c =>
    have hc : c ∈ B := List.mem_of_getLast?_eq_some hB'
    have h2 := hB c hc
    unfold isLineTerm at h2
    exact h2

/-- Dropping leading whitespace skips over an all-whitespace prefix. -/
theorem dropWhile_append_of_all (w z : List Char)
    (hw : ∀ x ∈ w, isPySpace x = true) :
    (w ++ z).dropWhile isPySpace = z.dropWhile isPySpace := by
  induction w with
  | nil => rfl
  | cons a w ih =>
    rw [List.cons_append, List.dropWhile_cons, if_pos (hw a (List.mem_cons_self _ _))]
    exact ih (fun x hx => hw x (List.mem_cons_of_mem _ hx))

/-- Dropping leading whitespace stops inside the left part when that
part is not all whitespace. -/
theorem dropWhile_append_left (x w : List Char)
    (hx : x.dropWhile isPySpace ≠ []) :
    (x ++ w).dropWhile isPySpace = x.dropWhile isPySpace ++ w := by
  induction x with
  | nil => exact absurd rfl hx
  | cons a xs ih =>
    rw [List.cons_append, List.dropWhile_cons]
    by_cases ha : isPySpace a = true
    · rw [if_pos ha, List.dropWhile_cons, if_pos ha]
      rw [List.dropWhile_cons, if_pos ha] at hx
      exact ih hx
    · rw [if_neg ha]
      rw [List.dropWhile_cons, if_neg ha]
      rfl

/-- Appending trailing whitespace does not change a stripped line. -/
theorem pyStrip_append_spaces (x w : List Char)
    (hw : ∀ c ∈ w, isPySpace c = true) :
    pyStrip (x ++ w) = pyStrip x := by
  unfold pyStrip
  by_cases hx : x.dropWhile isPySpace = []
  · have hxall : ∀ c ∈ x, isPySpace c = true := by
      have h2 := List.dropWhile_eq_nil_iff.mp hx
      intro c hc
      exact h2 c hc
    rw [dropWhile_append_of_all x w hxall,
      List.dropWhile_eq_nil_iff.mpr (fun c hc => hw c hc), hx]
  · rw [dropWhile_append_left x w hx, List.reverse_append,
      dropWhile_append_of_all w.reverse _
        (fun c hc => hw c (List.mem_reverse.mp hc))]

/-- LF alone strips to the empty line. -/
theorem pyStrip_newline : pyStrip ['\n'] = [] := rfl

/-- Flushing one complete line: when the head of the buffer splits off
as one terminated line, consuming equals parsing that line and then
consuming the remainder from fresh. -/
theorem consumeBuf_flush (B T rest : List Char) (p : Nat × Nat)
    (hsplit : splitLinesKeep (B ++ T ++ rest) = (B ++ T) :: splitLinesKeep rest)
    (hT : endsWithTerm (B ++ T) = true) :
    consumeBuf (B ++ T ++ rest) p
      = consumeBuf rest (updateFromLine p (pyStrip (B ++ T))) := by
  unfold consumeBuf
  rw [hsplit]
  cases hL : splitLinesKeep rest with
  | nil =>
    have hrest : rest = [] := (splitLinesKeep_eq_nil_iff rest).mp hL
    subst hrest
    have h1 : (((B ++ T) :: ([] : List (List Char))).getLastD []) = B ++ T := rfl
    simp only [hL, List.isEmpty_cons, List.isEmpty_nil, h1, hT, if_true,
      Bool.false_eq_true, if_false, processLines, List.foldl_cons, List.foldl_nil]
  | cons l ls =>
    have h1 : (((B ++ T) :: l :: ls).getLastD []) = ((l :: ls).getLastD []) := by
      simp [List.getLastD_eq_getLast?]
    have h2 : ((B ++ T) :: l :: ls).dropLast = (B ++ T) :: (l :: ls).dropLast := rfl
    simp only [List.isEmpty_cons, h1, h2, Bool.false_eq_true, if_false]
    cases hends : endsWithTerm ((l :: ls).getLastD []) <;>
      simp [hends, processLines]

/-- Consuming from a flushed state is processing the data directly. -/
theorem consume_flushed (q : Nat × Nat) (data : List Char) :
    consume { buffer := [], copiedFiles := q.1, copiedBytes := q.2 } data
      = consumeBuf data q := by
  unfold consume
  simp

/-- A consume call with no data leaves the tracker unchanged (the
carry-over buffer holds no terminator). -/
theorem consume_nil (t : Tracker) (hB : ∀ x ∈ t.buffer, isLineTerm x = false) :
    consume t [] = t := by
  obtain ⟨B, f, b⟩ := t
  unfold consume consumeBuf
  simp only [List.append_nil]
  by_cases hBe : B = []
  · subst hBe
    simp [splitLinesKeep]
  · rw [splitLinesKeep_of_noTerm B hB hBe]
    have h1 : (([B] : List (List Char)).getLastD []) = B := rfl
    simp only [List.isEmpty_cons, h1, endsWithTerm_of_noTerm B hB,
      Bool.false_eq_true, if_false]
    simp [processLines]

/-- One consume call equals feeding its characters one at a time. -/
theorem consume_step (t : Tracker) (c : Char) (rest : List Char)
    (hB : ∀ x ∈ t.buffer, isLineTerm x = false) :
    consume t (c :: rest) = consume (stepChar t c) rest := by
  by_cases hc : isLineTerm c = true
  · have hor : c = '\n' ∨ c = '\r' := by
      unfold isLineTerm at hc
      by_cases h1 : c = '\n'
      · exact Or.inl h1
      · refine Or.inr ?_
        by_cases h2 : c = '\r'
        · exact h2
        · simp [h1, h2] at hc
    unfold stepChar
    rw [if_pos hc]
    rw [consume_flushed]
    rcases hor with rfl | rfl
    · show consumeBuf (t.buffer ++ '\n' :: rest) (t.copiedFiles, t.copiedBytes) = _
      rw [show t.buffer ++ '\n' :: rest = t.buffer ++ ['\n'] ++ rest by simp,
        consumeBuf_flush t.buffer ['\n'] rest _
          (by
            rw [List.append_assoc, List.singleton_append]
            exact splitLinesKeep_append_newline t.buffer rest hB)
          (endsWithTerm_concat_newline t.buffer)]
    · cases rest with
      | nil =>
        show consumeBuf (t.buffer ++ ['\r']) (t.copiedFiles, t.copiedBytes) = _
        rw [show t.buffer ++ ['\r'] = t.buffer ++ ['\r'] ++ [] by simp,
          consumeBuf_flush t.buffer ['\r'] [] _
            (by
              have h := splitLinesKeep_append_cr t.buffer [] hB (Or.inl rfl)
              simpa using h)
            (endsWithTerm_concat_cr t.buffer)]
        simp
      | cons c2 rest2 =>
        by_cases hc2 : c2 = '\n'
        · subst hc2
          show consumeBuf (t.buffer ++ '\r' :: '\n' :: rest2)
              (t.copiedFiles, t.copiedBytes) = _
          rw [show t.buffer ++ '\r' :: '\n' :: rest2
                = t.buffer ++ ['\r', '\n'] ++ rest2 by simp,
            consumeBuf_flush t.buffer ['\r', '\n'] rest2 _
              (by
                rw [List.append_assoc]
                have h := splitLinesKeep_append_crlf t.buffer rest2 hB
                simpa using h)
              (endsWithTerm_concat_crlf t.buffer)]
          rw [show ('\n' :: rest2) = [] ++ ['\n'] ++ rest2 by simp,
            consumeBuf_flush [] ['\n'] rest2 _
              (by
                rw [List.nil_append, List.singleton_append]
                exact splitLinesKeep_cons_newline rest2)
              (by rw [List.nil_append]; exact endsWithTerm_concat_newline [])]
          rw [show pyStrip ([] ++ ['\n']) = [] from rfl]
          rw [show ∀ q : Nat × Nat, updateFromLine q [] = q from fun q => rfl]
          rw [pyStrip_append_spaces t.buffer ['\r', '\n'] (by decide),
            pyStrip_append_spaces t.buffer ['\r'] (by decide)]
        · show consumeBuf (t.buffer ++ '\r' :: c2 :: rest2)
              (t.copiedFiles, t.copiedBytes) = _
          rw [show t.buffer ++ '\r' :: c2 :: rest2
                = t.buffer ++ ['\r'] ++ (c2 :: rest2) by simp,
            consumeBuf_flush t.buffer ['\r'] (c2 :: rest2) _
              (by
                rw [List.append_assoc, List.singleton_append]
                exact splitLinesKeep_append_cr t.buffer (c2 :: rest2) hB
                  (Or.inr ⟨c2, rest2, rfl, hc2⟩))
              (endsWithTerm_concat_cr t.buffer)]
  · have hc' : isLineTerm c = false := by
      cases h : isLineTerm c
      · rfl
      · exact absurd h hc
    unfold consume stepChar
    rw [if_neg (by simp [hc'])]
    have h3 : t.buffer ++ c :: rest = (t.buffer ++ [c]) ++ rest := by simp
    rw [h3]

/-- The single-character step keeps the buffer terminator-free. -/
theorem stepChar_buffer_noTerm (t : Tracker) (c : Char)
    (hB : ∀ x ∈ t.buffer, isLineTerm x = false) :
    ∀ x ∈ (stepChar t c).buffer, isLineTerm x = false := by
  unfold stepChar
  by_cases hc : isLineTerm c = true
  · rw [if_pos hc]
    intro x hx
    simp at hx
  · have hc' : isLineTerm c = false := by
      cases h : isLineTerm c
      · rfl
      · exact absurd h hc
    rw [if_neg (by simp [hc'])]
    intro x hx
    simp at hx
    rcases hx with hx | rfl
    · exact hB x hx
    · exact hc'

/-- A consume call is the fold of the single-character step. -/
theorem consume_eq_foldl (t : Tracker) (data : List Char)
    (hB : ∀ x ∈ t.buffer, isLineTerm x = false) :
    consume t data = data.foldl stepChar t := by
  induction data generalizing t with
  | nil => exact consume_nil t hB
  | cons c rest ih =>
    rw [List.foldl_cons, consume_step t c rest hB]
    exact ih (stepChar t c) (stepChar_buffer_noTerm t c hB)

/-- Folding the single-character step keeps the buffer terminator-free. -/
theorem foldl_stepChar_buffer_noTerm (data : List Char) :
    ∀ (t : Tracker), (∀ x ∈ t.buffer, isLineTerm x = false) →
      ∀ x ∈ (data.foldl stepChar t).buffer, isLineTerm x = false := by
  induction data with
  | nil => intro t h; exact h
  | cons c rest ih =>
    intro t h
    rw [List.foldl_cons]
    exact ih (stepChar t c) (stepChar_buffer_noTerm t c h)

/-- The carry-over left by a consume call is terminator-free. -/
theorem consume_buffer_noTerm (t : Tracker) (a : List Char)
    (hB : ∀ x ∈ t.buffer, isLineTerm x = false) :
    ∀ x ∈ (consume t a).buffer, isLineTerm x = false := by
  rw [consume_eq_foldl t a hB]
  exact foldl_stepChar_buffer_noTerm a t hB

/-- Two consecutive consume calls equal one call on the concatenation:
the carry-over reassembles lines split across the boundary. -/
theorem consume_append (t : Tracker) (a b : List Char)
    (hB : ∀ x ∈ t.buffer, isLineTerm x = false) :
    consume (consume t a) b = consume t (a ++ b) := by
  rw [consume_eq_foldl t (a ++ b) hB, List.foldl_append, consume_eq_foldl t a hB]
  exact consume_eq_foldl (a.foldl stepChar t) b
    (foldl_stepChar_buffer_noTerm a t hB)

/-- C2: for every stream text and every way of chunking it, consuming
the chunks in arrival order produces the same tracker state as consuming
the whole text at once — each complete line is parsed exactly once; in
particular the copy-event line split as `"New File   1,0"` then
`"24   clip.mov\n"` increments the counters exactly once, with the full
parsed size 1024. -/
theorem C2_chunked_parsing :
    (∀ (t : Tracker) (chunks : List (List Char)),
        (∀ x ∈ t.buffer, isLineTerm x = false) →
        chunks.foldl consume t = consume t chunks.flatten)
    ∧ (consume (consume trackerInit "New File   1,0".toList)
        "24   clip.mov\n".toList).copiedFiles = 1
    ∧ (consume (consume trackerInit "New File   1,0".toList)
        "24   clip.mov\n".toList).copiedBytes = 1024 := by
  refine ⟨?_, by decide, by decide⟩
  intro t chunks
  induction chunks generalizing t with
  | nil =>
    intro hB
    rw [List.foldl_nil]
    exact (consume_nil t hB).symm
  | cons a rest ih =>
    intro hB
    rw [List.foldl_cons, ih (consume t a) (consume_buffer_noTerm t a hB),
      consume_append t a rest.flatten hB]
    rfl

/-- Witness for C2: the example line fed in two chunks equals the line
fed whole, and parses once as 1024 bytes. -/
theorem C2_chunked_parsing_witness :
    List.foldl consume trackerInit
        ["New File   1,0".toList, "24   clip.mov\n".toList]
      = consume trackerInit
          (["New File   1,0".toList, "24   clip.mov\n".toList] : List (List Char)).flatten :=
  C2_chunked_parsing.1 trackerInit
    ["New File   1,0".toList, "24   clip.mov\n".toList] (by decide)

/-- C3 counterexample: in a progress state reached by consuming one
copy-event of size 290 with totalBytes = 1000, the code reports 28
percent — `int((290/1000)*100)` evaluates the binary64 product
28.999999999999996 and truncates — while the claimed exact formula
floor(100 × 290 / 1000) clamped to 100 gives 29. -/
theorem C3_counterexample :
    update_progress 1000 3
      (consume trackerInit "New File   290   x.mov\n".toList).copiedBytes
      (consume trackerInit "New File   290   x.mov\n".toList).copiedFiles
      false = some 28
    ∧ specFloorPercent
        (consume trackerInit "New File   290   x.mov\n".toList).copiedBytes
        1000 = 29 := by
  constructor
  · decide
  · decide

/-- C3 (amended): the derived percentage follows the three-tier
priority — known positive totalBytes first, then known positive
totalFiles, then (only at completion) 100 or 0 by whether anything was
copied — where the byte and file tiers compute
`min(100, int((copied/total)*100))` in binary64 arithmetic (equal to
floor(100×copied/total) except for double-rounding cases); the value is
always clamped to at most 100; and with totalBytes = 1000 and consumed
copy-events of sizes 300 and 200 the reported percent is 50. -/
theorem C3_amended_percent :
    (∀ (totalBytes totalFiles copiedBytes copiedFiles : Nat) (final : Bool),
       (totalBytes > 0 →
         update_progress totalBytes totalFiles copiedBytes copiedFiles final
           = some (pyPercent copiedBytes totalBytes))
       ∧ (totalBytes = 0 → totalFiles > 0 →
         update_progress totalBytes totalFiles copiedBytes copiedFiles final
           = some (pyPercent copiedFiles totalFiles))
       ∧ (totalBytes = 0 → totalFiles = 0 → final = true →
         update_progress totalBytes totalFiles copiedBytes copiedFiles final
           = some (if copiedBytes > 0 || copiedFiles > 0 then 100 else 0))
       ∧ (totalBytes = 0 → totalFiles = 0 → final = false →
         update_progress totalBytes totalFiles copiedBytes copiedFiles final
           = none)
       ∧ pyPercent copiedBytes totalBytes ≤ 100)
    ∧ update_progress 1000 2
        (consume (consume trackerInit "New File   300   a.mov\n".toList)
          "New File   200   b.mov\n".toList).copiedBytes
        (consume (consume trackerInit "New File   300   a.mov\n".toList)
          "New File   200   b.mov\n".toList).copiedFiles
        false = some 50 := by
  constructor
  · intro totalBytes totalFiles copiedBytes copiedFiles final
    refine ⟨?_, ?_, ?_, ?_, ?_⟩
    · intro h
      simp [update_progress, h]
    · intro h1 h2
      subst h1
      simp [update_progress, h2]
    · intro h1 h2 h3
      subst h1; subst h2; subst h3
      simp [update_progress]
    · intro h1 h2 h3
      subst h1; subst h2; subst h3
      simp [update_progress]
    · unfold pyPercent
      by_cases hc : copiedBytes = 0
      · simp [hc]
      · simp [hc]
  · decide

/-- Witness for C3 (amended) at a concrete byte-tier state. -/
theorem C3_amended_percent_witness :
    update_progress 1000 2 500 2 false = some (pyPercent 500 1000) :=
  ((C3_amended_percent.1 1000 2 500 2 false).1) (by decide)

end ReelTransfer
